import Mathlib

/-!
Verification development for the `icco/scheduler` repository (Go).

The repository's core (src/main.go) loads a JSON job config, and for each
job parses a 5-field cron rule and computes the next fire time relative to
a reference instant, dispatching container tasks.  The cron parsing and
recurrence evaluation is delegated to an external library whose source is
not part of the repository; those two components are modelled here from the
specification (spec sections 4.1 and 4.2).  Everything else (Job.Next,
Job.Name, Job.Run request building, GetConfig, the cronHandler tick loop)
is embedded from src/main.go.

Instants are modelled as natural numbers counting seconds since the epoch
2000-01-01 00:00 (a Saturday); candidate fire times are whole minutes.
-/

namespace Scheduler

/-! ## Character-list utilities (used by the parser model) -/

/-- Split a character list at every character satisfying `p`, keeping empty
segments (the analogue of Go `strings.Split` for one-character separators). -/
def splitCh (p : Char → Bool) : List Char → List (List Char)
  | [] => [[]]
  | c :: rest =>
    if p c then [] :: splitCh p rest
    else
      match splitCh p rest with
      | [] => [[c]]
      | h :: t => (c :: h) :: t

/-- Numeric value of a digit list, most significant first. -/
def digitsVal (l : List Char) : Nat :=
  l.foldl (fun a c => a * 10 + (c.toNat - 48)) 0

/-- A nonempty list of decimal digits? -/
def isDigits (l : List Char) : Bool :=
  !l.isEmpty && l.all Char.isDigit

/-- Parse a nonempty decimal digit list to a number; `none` otherwise. -/
def digitsToNat (l : List Char) : Option Nat :=
  if isDigits l then some (digitsVal l) else none

/-! ## Cron data model (spec section 3) -/

/-- Errors of the cron-expression parser (spec section 4.1). -/
inductive ParseError where
  | badFieldCount
  | badToken
  | outOfRange
  | badRange
  | badStep
deriving DecidableEq, Repr

/-- One cron field: a pure wildcard, or a list of concrete values. -/
inductive CronField where
  | wildcard
  | values (vs : List Nat)
deriving DecidableEq, Repr

/-- The five parsed cron fields, in source order. -/
structure RecurrenceDescriptor where
  minute : CronField
  hour : CronField
  dom : CronField
  month : CronField
  dow : CronField
deriving DecidableEq, Repr

/-! ## The parser, modelled from the spec

Modelled from the spec: the repository delegates cron parsing to an external
library (`cron.Parse`) whose source is not in the repository; this follows
spec section 4.1: five whitespace-separated fields, each a comma-separated
list of `*`, single integer, range `a-b` (inclusive, `a ≤ b`), or step
`*/n` / `a-b/n` with positive `n`, all integers within the field's domain. -/

/-- The arithmetic progression `a, a+step, ...` up to `b` (for `a ≤ b`). -/
def rangeStep (a b step : Nat) : List Nat :=
  (List.range ((b - a) / step + 1)).map (fun i => a + i * step)

/-- Parse one comma-separated token of a field with domain `[lo, hi]`. -/
def parseToken (lo hi : Nat) (t : List Char) : Except ParseError (List Nat) :=
  match splitCh (fun c => c == '/') t with
  | [body] =>
    if body == ['*'] then .ok (rangeStep lo hi 1)
    else
      match splitCh (fun c => c == '-') body with
      | [x] =>
        match digitsToNat x with
        | none => .error .badToken
        | some n => if lo ≤ n ∧ n ≤ hi then .ok [n] else .error .outOfRange
      | [x, y] =>
        match digitsToNat x, digitsToNat y with
        | some a, some b =>
          if lo ≤ a ∧ b ≤ hi then
            if a ≤ b then .ok (rangeStep a b 1) else .error .badRange
          else .error .outOfRange
        | _, _ => .error .badToken
      | _ => .error .badToken
  | [body, stepStr] =>
    match digitsToNat stepStr with
    | some (k + 1) =>
      if body == ['*'] then .ok (rangeStep lo hi (k + 1))
      else
        match splitCh (fun c => c == '-') body with
        | [x, y] =>
          match digitsToNat x, digitsToNat y with
          | some a, some b =>
            if lo ≤ a ∧ b ≤ hi then
              if a ≤ b then .ok (rangeStep a b (k + 1)) else .error .badRange
            else .error .outOfRange
          | _, _ => .error .badToken
        | _ => .error .badToken
    | _ => .error .badStep
  | _ => .error .badToken

/-- Parse every token of a field, concatenating the value lists. -/
def parseTokens (lo hi : Nat) : List (List Char) → Except ParseError (List Nat)
  | [] => .ok []
  | t :: ts =>
    match parseToken lo hi t with
    | .error e => .error e
    | .ok l =>
      match parseTokens lo hi ts with
      | .error e => .error e
      | .ok ls => .ok (l ++ ls)

/-- Parse one whitespace-separated field with domain `[lo, hi]`.  The field
that is exactly `*` is the pure wildcard; otherwise a comma list of tokens. -/
def parseField (lo hi : Nat) (f : List Char) : Except ParseError CronField :=
  if f == ['*'] then .ok .wildcard
  else
    match parseTokens lo hi (splitCh (fun c => c == ',') f) with
    | .ok vs => .ok (.values vs)
    | .error e => .error e

/-- The whitespace-separated fields of a rule string (empty runs dropped,
as Go `strings.Fields` does). -/
def ruleFields (s : List Char) : List (List Char) :=
  (splitCh (fun c => c.isWhitespace) s).filter (fun x => !x.isEmpty)

/-- Modelled from the spec: `parse(expression) -> RecurrenceDescriptor | ParseError`
(spec section 4.1), standing in for the external library's `cron.Parse` used
at src/main.go line 174.  Field domains: minute 0-59, hour 0-23,
day-of-month 1-31, month 1-12, day-of-week 0-6. -/
def parse (s : String) : Except ParseError RecurrenceDescriptor :=
  match ruleFields s.data with
  | [f1, f2, f3, f4, f5] =>
    match parseField 0 59 f1, parseField 0 23 f2, parseField 1 31 f3,
        parseField 1 12 f4, parseField 0 6 f5 with
    | .ok m, .ok h, .ok d, .ok mo, .ok w => .ok ⟨m, h, d, mo, w⟩
    | .error e, _, _, _, _ => .error e
    | _, .error e, _, _, _ => .error e
    | _, _, .error e, _, _ => .error e
    | _, _, _, .error e, _ => .error e
    | _, _, _, _, .error e => .error e
  | _ => .error .badFieldCount

/-! ## The documented grammar, as a recognizer (spec sections 4.1 and 8) -/

/-- A nonempty digit token whose value lies in `[lo, hi]`. -/
def intOK (lo hi : Nat) (x : List Char) : Bool :=
  match digitsToNat x with
  | some n => decide (lo ≤ n ∧ n ≤ hi)
  | none => false

/-- A wildcard body, an in-range integer, or an in-range noninverted range. -/
def bodyOK (lo hi : Nat) (b : List Char) : Bool :=
  match splitCh (fun c => c == '-') b with
  | [x] =>
    match digitsToNat x with
    | some n => decide (lo ≤ n ∧ n ≤ hi)
    | none => false
  | [x, y] =>
    match digitsToNat x, digitsToNat y with
    | some a, some bb => decide (lo ≤ a ∧ bb ≤ hi ∧ a ≤ bb)
    | _, _ => false
  | _ => false

/-- An in-range noninverted range `a-b` (the only stepped body besides `*`). -/
def rangeOK (lo hi : Nat) (b : List Char) : Bool :=
  match splitCh (fun c => c == '-') b with
  | [x, y] =>
    match digitsToNat x, digitsToNat y with
    | some a, some bb => decide (lo ≤ a ∧ bb ≤ hi ∧ a ≤ bb)
    | _, _ => false
  | _ => false

/-- A positive integer step divisor. -/
def stepOK (s : List Char) : Bool :=
  match digitsToNat s with
  | some (_ + 1) => true
  | _ => false

/-- One token of the documented grammar: `*`, integer, range, or step. -/
def tokenOK (lo hi : Nat) (t : List Char) : Bool :=
  match splitCh (fun c => c == '/') t with
  | [body] => body == ['*'] || bodyOK lo hi body
  | [body, stepStr] => stepOK stepStr && (body == ['*'] || rangeOK lo hi body)
  | _ => false

/-- A field of the documented grammar: a comma-separated token list. -/
def fieldOK (lo hi : Nat) (f : List Char) : Bool :=
  (splitCh (fun c => c == ',') f).all (tokenOK lo hi)

/-- A string conforming to the documented 5-field grammar (spec section 4.1). -/
def conforms (s : String) : Bool :=
  match ruleFields s.data with
  | [f1, f2, f3, f4, f5] =>
    fieldOK 0 59 f1 && fieldOK 0 23 f2 && fieldOK 1 31 f3 &&
      fieldOK 1 12 f4 && fieldOK 0 6 f5
  | _ => false

/-- The descriptor invariant of spec section 3: each field's concrete values
lie within its domain range. -/
def fieldValid (lo hi : Nat) : CronField → Prop
  | .wildcard => True
  | .values vs => ∀ v ∈ vs, lo ≤ v ∧ v ≤ hi

/-- All five fields satisfy their domain invariant. -/
def validDesc (d : RecurrenceDescriptor) : Prop :=
  fieldValid 0 59 d.minute ∧ fieldValid 0 23 d.hour ∧ fieldValid 1 31 d.dom ∧
    fieldValid 1 12 d.month ∧ fieldValid 0 6 d.dow

/-! ## Calendar arithmetic -/

/-- Gregorian leap year. -/
def isLeap (y : Nat) : Bool :=
  (y % 4 == 0 && y % 100 != 0) || y % 400 == 0

/-- Days in year `y`. -/
def daysInYear (y : Nat) : Nat :=
  if isLeap y then 366 else 365

/-- Days in month `m` of year `y` (months 1-12). -/
def daysInMonth (y m : Nat) : Nat :=
  if m == 2 then (if isLeap y then 29 else 28)
  else if m == 4 || m == 6 || m == 9 || m == 11 then 30 else 31

/-- Strip whole years off a day count, starting at year `y` (fuel-driven). -/
def ydGo : Nat → Nat → Nat → Nat × Nat
  | 0, y, d => (y, d)
  | fuel + 1, y, d =>
    if d < daysInYear y then (y, d) else ydGo fuel (y + 1) (d - daysInYear y)

/-- Strip whole months off a day-of-year, starting at month `m`; returns
(month, day-of-month), day-of-month starting at 1 (fuel-driven). -/
def mdGo : Nat → Nat → Nat → Nat → Nat × Nat
  | 0, _, m, doy => (m, doy + 1)
  | fuel + 1, y, m, doy =>
    if doy < daysInMonth y m then (m, doy + 1)
    else mdGo fuel y (m + 1) (doy - daysInMonth y m)

/-- (year, month, day) of a day count since 2000-01-01. -/
def civilOfDays (days : Nat) : Nat × Nat × Nat :=
  let yd := ydGo days 2000 days
  let md := mdGo 11 yd.1 1 yd.2
  (yd.1, md.1, md.2)

/-- Month (1-12) of candidate minute `m` (minutes since the epoch). -/
def monthOf (m : Nat) : Nat := (civilOfDays (m / 1440)).2.1

/-- Day of month (1-31) of candidate minute `m`. -/
def dayOf (m : Nat) : Nat := (civilOfDays (m / 1440)).2.2

/-- Day of week (0 = Sunday) of candidate minute `m`; 2000-01-01 was a
Saturday (weekday 6). -/
def weekdayOf (m : Nat) : Nat := (m / 1440 + 6) % 7

/-! ## The recurrence evaluator, modelled from the spec (section 4.2) -/

/-- Errors of the recurrence evaluator. -/
inductive EvalError where
  | notFound
deriving DecidableEq, Repr

/-- Wildcard matches everything; a value list matches by membership. -/
def fieldMatches : CronField → Nat → Bool
  | .wildcard, _ => true
  | .values vs, v => vs.contains v

/-- Day-of-month / day-of-week combination, per standard cron OR semantics
(spec section 4.2): when neither is a pure wildcard the two sets are
OR-combined; when one is a wildcard only the other constrains. -/
def dayMatches (domF dowF : CronField) (d w : Nat) : Bool :=
  match domF, dowF with
  | .wildcard, .wildcard => true
  | .wildcard, f => fieldMatches f w
  | f, .wildcard => fieldMatches f d
  | f, g => fieldMatches f d || fieldMatches g w

/-- Candidate minute `m` matches the descriptor. -/
def matchesDesc (desc : RecurrenceDescriptor) (m : Nat) : Bool :=
  fieldMatches desc.minute (m % 60) &&
  fieldMatches desc.hour (m / 60 % 24) &&
  fieldMatches desc.month (monthOf m) &&
  dayMatches desc.dom desc.dow (dayOf m) (weekdayOf m)

/-- The bounded search horizon: five years of minutes (spec section 4.2,
"bounded search, e.g. up to a multi-year horizon"). -/
def horizon : Nat := 5 * 366 * 24 * 60

/-- Scan forward from candidate minute `start`, spending one fuel per
minute, for the first matching minute. -/
def findMatch (d : RecurrenceDescriptor) : Nat → Nat → Option Nat
  | _, 0 => none
  | start, fuel + 1 =>
    if matchesDesc d start then some start else findMatch d (start + 1) fuel

/-- Modelled from the spec: `next(descriptor, after) -> Instant | EvaluationError`
(spec section 4.2), standing in for the external library's `Schedule.Next`
used at src/main.go line 179.  `t` is in seconds; the scan starts at
`after + 1 minute` truncated to the minute boundary and is bounded by the
horizon. -/
def next (d : RecurrenceDescriptor) (t : Nat) : Except EvalError Nat :=
  match findMatch d (t / 60 + 1) horizon with
  | some m => .ok (m * 60)
  | none => .error .notFound

/-! ## Job model (src/main.go lines 160-253) -/

/-- A job entry of the config file (src/main.go lines 164-171).  The Go
`Environment` map is modelled as an association list. -/
structure Job where
  RawName : String
  Description : String
  CronRule : String
  Image : String
  Command : List String
  Environment : List (String × String)
deriving DecidableEq, Repr

/-- The error component of `Job.Next`: a parse error, or an evaluation
error (the spec's error kind, which the source's `Job.Next` never actually
emits — see the definition below). -/
inductive JobError where
  | parseErr (e : ParseError)
  | evalErr (e : EvalError)
deriving DecidableEq, Repr

/-- Embedding of `Job.Next` (src/main.go lines 173-180).  `ambient` is the value the
global wall clock (`time.Now()`) would read during the call: the source
returns `time.Now(), err` on the parse-error path.  On the parse-success
path the source is `return sched.Next(t), nil` (line 179): the error
component is the literal `nil`, so an evaluation failure is never surfaced
to the caller; the library's `Schedule.Next` yields only an Instant, its
horizon-exhaustion case modelled as the zero instant. -/
def Job.Next (ambient : Nat) (j : Job) (t : Nat) : Nat × Option JobError :=
  match parse j.CronRule with
  | .error e => (ambient, some (.parseErr e))
  | .ok d =>
    match next d t with
    | .ok r => (r, none)
    | .error _ => (0, none)

/-- Embedding of `Job.Name` (src/main.go lines 182-186): prefix the raw name. -/
def Job.Name (j : Job) : String :=
  "scheduled-" ++ j.RawName

/-- The container definition submitted by `Job.Run` (the fields set at
src/main.go lines 193-218); `none` models an omitted (nil) field. -/
structure ContainerDefinition where
  Essential : Bool
  Image : String
  MemoryReservation : Nat
  Name : String
  Command : Option (List String)
  Environment : Option (List (String × String))
deriving DecidableEq, Repr

/-- The request-building part of `Job.Run` (src/main.go lines 193-218):
`Command` and `Environment` are set only when nonempty.  The Go map
iteration order for `Environment` is unspecified; the association list's
own order stands in for it. -/
def buildContainerDef (j : Job) : ContainerDefinition :=
  let base : ContainerDefinition :=
    { Essential := true, Image := j.Image, MemoryReservation := 1024,
      Name := Job.Name j, Command := none, Environment := none }
  let withCmd :=
    if j.Command.length > 0 then { base with Command := some j.Command } else base
  if j.Environment.length > 0 then { withCmd with Environment := some j.Environment }
  else withCmd

/-- The config file shape (src/main.go lines 160-162). -/
structure ConfigFile where
  Jobs : List Job
deriving DecidableEq, Repr

/-- Embedding of `GetConfig` (src/main.go lines 235-253).  `readResult` models the
outcome of reading the config file; `decode` models `ffjson.Unmarshal`
returning the decoded value alongside an optional error.  The source
assigns the decode error to `err` and then executes `return cf, nil`,
so the decode error is dropped. -/
def GetConfig (readResult : Except String String)
    (decode : String → ConfigFile × Option String) : ConfigFile × Option String :=
  match readResult with
  | .error e => (⟨[]⟩, some e)
  | .ok data => ((decode data).1, none)

/-! ## The tick loop (src/main.go cronHandler, lines 140-158) -/

/-- Per-job outcome of one tick: the handler logs the next run time on
success and logs the error and continues on failure. -/
inductive TickOutcome where
  | Scheduled (j : Job) (time : Nat)
  | Failed (j : Job) (e : JobError)
deriving DecidableEq, Repr

/-- The loop body of `cronHandler` for one job. -/
def tickOne (now : Nat) (j : Job) : TickOutcome :=
  match Job.Next now j now with
  | (n, none) => .Scheduled j n
  | (_, some e) => .Failed j e

/-- The `cronHandler` loop over all jobs (src/main.go lines 148-155); the
source reads `time.Now()` per iteration, modelled as one ambient instant
for the whole tick. -/
def tick (now : Nat) (jobs : List Job) : List TickOutcome :=
  jobs.map (tickOne now)

/-- A job whose cron rule fails to parse (tick scenario input). -/
def jobBad : Job := ⟨"bad-job", "", "not a cron", "img", [], []⟩

/-- A job with an always-matching wildcard rule (tick scenario input). -/
def jobGood : Job := ⟨"good-job", "", "* * * * *", "img", [], []⟩

/-! ## Lemmas about the bounded forward scan -/

theorem findMatch_spec (d : RecurrenceDescriptor) :
    ∀ (fuel s m : Nat), findMatch d s fuel = some m →
      s ≤ m ∧ matchesDesc d m = true ∧
        ∀ k, s ≤ k → k < m → matchesDesc d k = false := by
  intro fuel
  induction fuel with
  | zero => intro s m h; simp [findMatch] at h
  | succ f ih =>
    intro s m h
    rw [findMatch] at h
    by_cases hc : matchesDesc d s = true
    · rw [if_pos hc] at h
      have hsm : s = m := by simpa using h
      subst hsm
      exact ⟨Nat.le_refl s, hc, fun k h1 h2 => absurd h2 (by omega)⟩
    · rw [if_neg hc] at h
      obtain ⟨h1, h2, h3⟩ := ih (s + 1) m h
      refine ⟨by omega, h2, fun k hk1 hk2 => ?_⟩
      by_cases hks : k = s
      · subst hks; exact Bool.eq_false_iff.mpr hc
      · exact h3 k (by omega) hk2

theorem findMatch_of_unmatchable (d : RecurrenceDescriptor)
    (h : ∀ k, matchesDesc d k = false) :
    ∀ (fuel s : Nat), findMatch d s fuel = none := by
  intro fuel
  induction fuel with
  | zero => intro s; rw [findMatch]
  | succ f ih =>
    intro s
    rw [findMatch, h s]
    simpa using ih (s + 1)

/-! ## Lemmas about the all-wildcard descriptor -/

theorem matchesDesc_wild (m : Nat) :
    matchesDesc ⟨.wildcard, .wildcard, .wildcard, .wildcard, .wildcard⟩ m = true := rfl

theorem next_wild_eq (t : Nat) :
    next ⟨.wildcard, .wildcard, .wildcard, .wildcard, .wildcard⟩ t =
      .ok ((t / 60 + 1) * 60) := by
  have hh : horizon = 2635199 + 1 := rfl
  rw [next, hh, findMatch, if_pos (matchesDesc_wild _)]

/-! ## The calendar never produces February 31 -/

theorem mdGo_succ (fuel y m doy : Nat) :
    mdGo (fuel + 1) y m doy =
      if doy < daysInMonth y m then (m, doy + 1)
      else mdGo fuel y (m + 1) (doy - daysInMonth y m) := rfl

theorem mdGo_fst_ge : ∀ (fuel y m doy : Nat), m ≤ (mdGo fuel y m doy).1 := by
  intro fuel
  induction fuel with
  | zero => intro y m doy; rw [mdGo]
  | succ f ih =>
    intro y m doy
    rw [mdGo_succ]
    by_cases hc : doy < daysInMonth y m
    · rw [if_pos hc]
    · rw [if_neg hc]
      exact Nat.le_trans (Nat.le_succ m) (ih y (m + 1) (doy - daysInMonth y m))

theorem daysInMonth_one (y : Nat) : daysInMonth y 1 = 31 := rfl

theorem daysInMonth_two (y : Nat) : daysInMonth y 2 ≤ 29 := by
  unfold daysInMonth
  simp only [beq_self_eq_true, if_true]
  split <;> omega

theorem mdGo_month_two_day_le (y doy : Nat)
    (h : (mdGo 11 y 1 doy).1 = 2) : (mdGo 11 y 1 doy).2 ≤ 29 := by
  have e1 : mdGo 11 y 1 doy =
      if doy < daysInMonth y 1 then (1, doy + 1)
      else mdGo 10 y 2 (doy - daysInMonth y 1) := rfl
  have e2 : ∀ d2, mdGo 10 y 2 d2 =
      if d2 < daysInMonth y 2 then (2, d2 + 1)
      else mdGo 9 y 3 (d2 - daysInMonth y 2) := fun _ => rfl
  rw [e1] at h ⊢
  by_cases hc1 : doy < daysInMonth y 1
  · rw [if_pos hc1] at h; simp at h
  · rw [if_neg hc1] at h ⊢
    rw [e2] at h ⊢
    by_cases hc2 : doy - daysInMonth y 1 < daysInMonth y 2
    · rw [if_pos hc2] at h ⊢
      have := daysInMonth_two y
      simp only at h ⊢
      omega
    · rw [if_neg hc2] at h
      have := mdGo_fst_ge 9 y 3 (doy - daysInMonth y 1 - daysInMonth y 2)
      omega

theorem not_feb_31 (m : Nat) : ¬(monthOf m = 2 ∧ dayOf m = 31) := by
  rintro ⟨h2, h31⟩
  unfold monthOf at h2
  unfold dayOf at h31
  unfold civilOfDays at h2 h31
  simp only at h2 h31
  have := mdGo_month_two_day_le (ydGo (m / 1440) 2000 (m / 1440)).1
    (ydGo (m / 1440) 2000 (m / 1440)).2 h2
  omega

/-! ## Specific descriptors -/

theorem matchesDesc_feb31 (k : Nat) :
    matchesDesc ⟨.wildcard, .wildcard, .values [31], .values [2], .wildcard⟩ k = false := by
  have h := not_feb_31 k
  by_cases hm : monthOf k = 2
  · have hd : dayOf k ≠ 31 := fun hd => h ⟨hm, hd⟩
    simp [matchesDesc, fieldMatches, dayMatches, hd]
  · simp [matchesDesc, fieldMatches, dayMatches, hm]

theorem next_feb31_eq (t : Nat) :
    next ⟨.wildcard, .wildcard, .values [31], .values [2], .wildcard⟩ t =
      .error .notFound := by
  rw [next, findMatch_of_unmatchable _ matchesDesc_feb31]

theorem matchesDesc_dom15_dow1 (k : Nat) :
    matchesDesc ⟨.wildcard, .wildcard, .values [15], .wildcard, .values [1]⟩ k = true ↔
      (dayOf k = 15 ∨ weekdayOf k = 1) := by
  simp [matchesDesc, fieldMatches, dayMatches]

/-! ## Reduction lemmas for Job.Next -/

theorem jobNext_parse_error (a t : Nat) (j : Job) (e : ParseError)
    (hp : parse j.CronRule = .error e) :
    Job.Next a j t = (a, some (.parseErr e)) := by
  simp only [Job.Next, hp]

theorem jobNext_ok (a t : Nat) (j : Job) (d : RecurrenceDescriptor) (r : Nat)
    (hp : parse j.CronRule = .ok d) (hn : next d t = .ok r) :
    Job.Next a j t = (r, none) := by
  simp only [Job.Next, hp, hn]

theorem jobNext_eval_nil (a t : Nat) (j : Job) (d : RecurrenceDescriptor) (e : EvalError)
    (hp : parse j.CronRule = .ok d) (hn : next d t = .error e) :
    Job.Next a j t = (0, none) := by
  simp only [Job.Next, hp, hn]

/-! ## Claim theorems: the recurrence evaluator -/

/-- C6: for every 5-field cron expression that parses to a descriptor whose
five fields are all wildcards, and every reference instant `t` (seconds),
`next` returns `t` plus one minute truncated to the minute boundary. -/
theorem next_all_wildcards (s : String) (d : RecurrenceDescriptor) (t : Nat)
    (hp : parse s = .ok d)
    (h1 : d.minute = .wildcard) (h2 : d.hour = .wildcard) (h3 : d.dom = .wildcard)
    (h4 : d.month = .wildcard) (h5 : d.dow = .wildcard) :
    next d t = .ok ((t / 60 + 1) * 60) := by
  obtain ⟨fm, fh, fd, fmo, fw⟩ := d
  simp only at h1 h2 h3 h4 h5
  subst h1 h2 h3 h4 h5
  exact next_wild_eq t

/-- Witness for C6 at the expression `"* * * * *"` and `t = 123`. -/
theorem next_all_wildcards_witness :
    next ⟨.wildcard, .wildcard, .wildcard, .wildcard, .wildcard⟩ 123 = .ok 180 :=
  next_all_wildcards "* * * * *" ⟨.wildcard, .wildcard, .wildcard, .wildcard, .wildcard⟩
    123 rfl rfl rfl rfl rfl rfl

/-- C8: whenever evaluation from `t` succeeds and evaluation from the
returned fire time succeeds again, the second fire time is strictly
greater: no double-fire at the same instant. -/
theorem next_strictly_increasing (d : RecurrenceDescriptor) (t r r2 : Nat)
    (h1 : next d t = .ok r) (h2 : next d r = .ok r2) : r < r2 := by
  rw [next] at h1 h2
  rcases hm1 : findMatch d (t / 60 + 1) horizon with _ | m1
  · rw [hm1] at h1; exact absurd h1 (by simp)
  rw [hm1] at h1
  have hr : r = m1 * 60 := by simpa using h1.symm
  rcases hm2 : findMatch d (r / 60 + 1) horizon with _ | m2
  · rw [hm2] at h2; exact absurd h2 (by simp)
  rw [hm2] at h2
  have hr2 : r2 = m2 * 60 := by simpa using h2.symm
  have hle : r / 60 + 1 ≤ m2 := (findMatch_spec d horizon (r / 60 + 1) m2 hm2).1
  have hdiv : r / 60 = m1 := by rw [hr]; exact Nat.mul_div_cancel m1 (by omega)
  omega

/-- Witness for C8 at the all-wildcard descriptor and `t = 0`. -/
theorem next_strictly_increasing_witness :
    next ⟨.wildcard, .wildcard, .wildcard, .wildcard, .wildcard⟩ 0 = .ok 60 ∧
    next ⟨.wildcard, .wildcard, .wildcard, .wildcard, .wildcard⟩ 60 = .ok 120 ∧
    (60 : Nat) < 120 :=
  ⟨rfl, rfl,
    next_strictly_increasing ⟨.wildcard, .wildcard, .wildcard, .wildcard, .wildcard⟩
      0 60 120 rfl rfl⟩

/-- C3 counterexample: at the unsatisfiable rule day-of-month = 31,
month = 2, the bounded evaluator does fail with an evaluation error, yet
the caller of `Job.Next` receives a `none` error component — src/main.go
line 179 is `return sched.Next(t), nil`, hard-coding the error to nil on
the parse-success path — refuting the claim's "the error outcome (rather
than a normal Instant result) is what the caller receives". -/
theorem next_unsatisfiable_counterexample :
    next ⟨.wildcard, .wildcard, .values [31], .values [2], .wildcard⟩ 0 =
        .error .notFound ∧
    (Job.Next 7 ⟨"j", "", "* * 31 2 *", "", [], []⟩ 0).2 = none :=
  ⟨next_feb31_eq 0,
   by rw [jobNext_eval_nil 7 0 ⟨"j", "", "* * 31 2 *", "", [], []⟩
       ⟨.wildcard, .wildcard, .values [31], .values [2], .wildcard⟩ .notFound
       (by rfl) (next_feb31_eq 0)]⟩

/-- C3 amended: for every unsatisfiable descriptor (no candidate minute
matches), the evaluation terminates within the fixed horizon and returns
an `EvaluationError` instead of a normal Instant — the bounded search never
loops — but the caller of `Job.Next` does not receive that error outcome:
the source hard-codes a nil error on the parse-success path, so the
failure reaches the caller as a zero Instant with no error. -/
theorem next_unsatisfiable_bounded (d : RecurrenceDescriptor) (t : Nat)
    (h : ∀ k, matchesDesc d k = false) :
    next d t = .error .notFound ∧
    ∀ (a : Nat) (j : Job), parse j.CronRule = .ok d → (Job.Next a j t).2 = none := by
  have hn : next d t = .error .notFound := by
    rw [next, findMatch_of_unmatchable d h]
  exact ⟨hn, fun a j hp => by rw [jobNext_eval_nil a t j d .notFound hp hn]⟩

/-- Witness for the amended C3 at the February-31 descriptor. -/
theorem next_unsatisfiable_bounded_witness :
    next ⟨.wildcard, .wildcard, .values [31], .values [2], .wildcard⟩ 99 =
        .error .notFound ∧
    (Job.Next 7 ⟨"j", "", "* * 31 2 *", "", [], []⟩ 99).2 = none :=
  ⟨(next_unsatisfiable_bounded _ 99 matchesDesc_feb31).1,
   (next_unsatisfiable_bounded _ 99 matchesDesc_feb31).2 7
     ⟨"j", "", "* * 31 2 *", "", [], []⟩ (by rfl)⟩

/-- C7: with day-of-month = 15 and day-of-week = 1 (others wildcard) a
successful evaluation returns the first candidate minute falling on the
15th OR on weekday 1 (union semantics), and whenever one of the two day
fields is a wildcard, `dayMatches` constrains by the other field only. -/
theorem next_dom_dow_union (t r : Nat)
    (h : next ⟨.wildcard, .wildcard, .values [15], .wildcard, .values [1]⟩ t = .ok r) :
    (∃ m, r = m * 60 ∧ t / 60 < m ∧ (dayOf m = 15 ∨ weekdayOf m = 1) ∧
      ∀ k, t / 60 < k → k < m → ¬(dayOf k = 15 ∨ weekdayOf k = 1)) ∧
    ∀ (f : CronField) (d w : Nat),
      dayMatches .wildcard f d w = fieldMatches f w ∧
      dayMatches f .wildcard d w = fieldMatches f d := by
  constructor
  · rw [next] at h
    rcases hm : findMatch ⟨.wildcard, .wildcard, .values [15], .wildcard, .values [1]⟩
        (t / 60 + 1) horizon with _ | m
    · rw [hm] at h; exact absurd h (by simp)
    rw [hm] at h
    have hr : r = m * 60 := by simpa using h.symm
    obtain ⟨hle, hmt, hmin⟩ := findMatch_spec _ horizon (t / 60 + 1) m hm
    refine ⟨m, hr, by omega, (matchesDesc_dom15_dow1 m).mp hmt, fun k hk1 hk2 hor => ?_⟩
    have htrue := (matchesDesc_dom15_dow1 k).mpr hor
    rw [hmin k (by omega) hk2] at htrue
    simp at htrue
  · intro f d w
    cases f <;> exact ⟨rfl, rfl⟩

/-- Witness for C7 just before midnight of 2000-01-15 (the minute 20160
since the epoch is the first candidate and falls on the 15th). -/
theorem next_dom_dow_union_witness :
    (∃ m, 1209600 = m * 60 ∧ 1209540 / 60 < m ∧ (dayOf m = 15 ∨ weekdayOf m = 1) ∧
      ∀ k, 1209540 / 60 < k → k < m → ¬(dayOf k = 15 ∨ weekdayOf k = 1)) ∧
    ∀ (f : CronField) (d w : Nat),
      dayMatches .wildcard f d w = fieldMatches f w ∧
      dayMatches f .wildcard d w = fieldMatches f d :=
  next_dom_dow_union 1209540 1209600 (by rfl)

/-! ## Claim theorems: config, dispatch, naming, request building -/

/-- C2 (code bug): when the configuration document fails to decode,
`GetConfig` still returns a `none` error component — the decode failure is
swallowed, not surfaced to the caller, because the source assigns the
`Unmarshal` error and then returns `cf, nil`. -/
theorem getConfig_swallows_decode_error :
    (GetConfig (.ok "not json")
        (fun _ => (⟨[]⟩, some "invalid JSON document"))).2 = none ∧
    ((fun (_ : String) => ((⟨[]⟩ : ConfigFile), some "invalid JSON document"))
        "not json").2 = some "invalid JSON document" :=
  ⟨rfl, rfl⟩

/-- C4 counterexample: for a rule that fails to parse, `Job.Next` returns
the ambient wall-clock reading as its Instant component, so two calls with
identical rule and reference instant but different wall-clock instants
return different results. -/
theorem jobNext_wall_clock_counterexample :
    Job.Next 0 ⟨"x", "", "bad", "", [], []⟩ 0 ≠
      Job.Next 1 ⟨"x", "", "bad", "", [], []⟩ 0 := by
  decide

/-- C4 amended: the error component of `Job.Next` never depends on the wall
clock, and for every rule that parses successfully the whole result is
determined by the rule and the reference instant alone. -/
theorem jobNext_deterministic (a a2 t : Nat) (j : Job) :
    (Job.Next a j t).2 = (Job.Next a2 j t).2 ∧
      ((parse j.CronRule).isOk = true → Job.Next a j t = Job.Next a2 j t) := by
  cases hp : parse j.CronRule with
  | error e =>
    constructor
    · rw [jobNext_parse_error a t j e hp, jobNext_parse_error a2 t j e hp]
    · intro hok; simp [Except.isOk, Except.toBool] at hok
  | ok d =>
    have h1 : ∀ b : Nat, Job.Next b j t =
        match next d t with
        | .ok r => (r, none)
        | .error _ => (0, none) := by
      intro b; simp only [Job.Next, hp]
    rw [h1 a, h1 a2]
    exact ⟨rfl, fun _ => rfl⟩

/-- Witness for the amended C4 at a valid rule. -/
theorem jobNext_deterministic_witness :
    (Job.Next 0 jobGood 5).2 = (Job.Next 1 jobGood 5).2 ∧
      Job.Next 0 jobGood 5 = Job.Next 1 jobGood 5 :=
  ⟨(jobNext_deterministic 0 1 5 jobGood).1,
   (jobNext_deterministic 0 1 5 jobGood).2 (by rfl)⟩

/-- C5: each tick entry is a function of its own job alone — splicing a job
into any surrounding job list leaves the other entries unchanged and never
aborts the tick — and the concrete scenario of one unparsable job followed
by one valid job yields one Failed and one Scheduled outcome, the valid
job's entry being exactly what it would be on its own. -/
theorem tick_per_job_isolation :
    (∀ (now : Nat) (pre post : List Job) (j : Job),
      tick now (pre ++ j :: post) = tick now pre ++ tickOne now j :: tick now post) ∧
    ∀ now : Nat, tick now [jobBad, jobGood] =
      [.Failed jobBad (.parseErr .badFieldCount),
       .Scheduled jobGood ((now / 60 + 1) * 60)] := by
  constructor
  · intro now pre post j
    simp [tick]
  · intro now
    have hbad : tickOne now jobBad = .Failed jobBad (.parseErr .badFieldCount) := by
      simp only [tickOne, jobNext_parse_error now now jobBad .badFieldCount (by rfl)]
    have hgood : tickOne now jobGood = .Scheduled jobGood ((now / 60 + 1) * 60) := by
      simp only [tickOne,
        jobNext_ok now now jobGood ⟨.wildcard, .wildcard, .wildcard, .wildcard, .wildcard⟩
          ((now / 60 + 1) * 60) (by rfl) (next_wild_eq now)]
    simp [tick, hbad, hgood]

/-- C9: the execution-identifier transform is a pure function of the raw
name (hence stable across calls and restarts), and distinct raw names give
distinct identifiers. -/
theorem jobName_deterministic_injective (j j2 : Job) :
    (j.RawName = j2.RawName → Job.Name j = Job.Name j2) ∧
    (Job.Name j = Job.Name j2 → j.RawName = j2.RawName) := by
  constructor
  · intro h; rw [Job.Name, Job.Name, h]
  · intro h
    rw [Job.Name, Job.Name] at h
    have hd := congrArg String.data h
    simp only [String.data_append] at hd
    exact String.ext (List.append_cancel_left hd)

/-- Witness for C9 at two jobs sharing a raw name. -/
theorem jobName_deterministic_injective_witness :
    Job.Name ⟨"daily", "a", "* * * * *", "img1", [], []⟩ =
      Job.Name ⟨"daily", "b", "0 9 * * *", "img2", ["x"], []⟩ :=
  (jobName_deterministic_injective ⟨"daily", "a", "* * * * *", "img1", [], []⟩
    ⟨"daily", "b", "0 9 * * *", "img2", ["x"], []⟩).1 rfl

/-- C10: the built container definition carries the job's command list and
environment pairs exactly when they are nonempty, and omits each field
(`none`) exactly when it is empty. -/
theorem run_includes_iff_nonempty (j : Job) :
    (j.Command = [] → (buildContainerDef j).Command = none) ∧
    (j.Command ≠ [] → (buildContainerDef j).Command = some j.Command) ∧
    (j.Environment = [] → (buildContainerDef j).Environment = none) ∧
    (j.Environment ≠ [] → (buildContainerDef j).Environment = some j.Environment) := by
  refine ⟨fun h => ?_, fun h => ?_, fun h => ?_, fun h => ?_⟩
  · have hl : ¬j.Command.length > 0 := by simp [h]
    by_cases he : j.Environment.length > 0 <;> simp [buildContainerDef, hl, he]
  · have hl : j.Command.length > 0 := List.length_pos.mpr h
    by_cases he : j.Environment.length > 0 <;> simp [buildContainerDef, hl, he]
  · have he : ¬j.Environment.length > 0 := by simp [h]
    by_cases hl : j.Command.length > 0 <;> simp [buildContainerDef, hl, he]
  · have he : j.Environment.length > 0 := List.length_pos.mpr h
    by_cases hl : j.Command.length > 0 <;> simp [buildContainerDef, hl, he]

/-- Witness for C10 at a job with a nonempty command and empty environment. -/
theorem run_includes_iff_nonempty_witness :
    (buildContainerDef ⟨"n", "", "* * * * *", "img", ["run"], []⟩).Command =
        some ["run"] ∧
    (buildContainerDef ⟨"n", "", "* * * * *", "img", ["run"], []⟩).Environment =
        none :=
  ⟨(run_includes_iff_nonempty ⟨"n", "", "* * * * *", "img", ["run"], []⟩).2.1
      (by simp),
   (run_includes_iff_nonempty ⟨"n", "", "* * * * *", "img", ["run"], []⟩).2.2.1 rfl⟩

/-! ## Parser totality over the documented grammar -/

@[simp] theorem isOk_ok {ε α : Type} (x : α) :
    (Except.ok x : Except ε α).isOk = true := rfl

@[simp] theorem isOk_error {ε α : Type} (e : ε) :
    (Except.error e : Except ε α).isOk = false := rfl

theorem parseToken_isOk (lo hi : Nat) (t : List Char) :
    (parseToken lo hi t).isOk = tokenOK lo hi t := by
  rcases hs : splitCh (fun c => c == '/') t with _ | ⟨body, _ | ⟨stepStr, _ | ⟨c3, rest⟩⟩⟩
  · simp [parseToken, tokenOK, hs]
  · simp only [parseToken, tokenOK, hs]
    by_cases hb : body == ['*']
    · simp [hb]
    · rcases hs2 : splitCh (fun c => c == '-') body with _ | ⟨x, _ | ⟨y, _ | _⟩⟩
      · simp [bodyOK, hb, hs2]
      · cases hd : digitsToNat x with
        | none => simp [bodyOK, hb, hs2, hd]
        | some n =>
          by_cases hn : lo ≤ n ∧ n ≤ hi <;> simp [bodyOK, hb, hs2, hd, hn]
      · cases hdx : digitsToNat x with
        | none => cases hdy : digitsToNat y <;> simp [bodyOK, hb, hs2, hdx, hdy]
        | some a =>
          cases hdy : digitsToNat y with
          | none => simp [bodyOK, hb, hs2, hdx, hdy]
          | some b =>
            by_cases h1 : lo ≤ a ∧ b ≤ hi
            · by_cases h2 : a ≤ b
              · simp [bodyOK, hb, hs2, hdx, hdy, h1, h2]
              · have h3 : ¬(lo ≤ a ∧ b ≤ hi ∧ a ≤ b) := by omega
                simp [bodyOK, hb, hs2, hdx, hdy, h1, h2, h3]
            · have h3 : ¬(lo ≤ a ∧ b ≤ hi ∧ a ≤ b) := by omega
              simp [bodyOK, hb, hs2, hdx, hdy, h1, h3]
      · simp [bodyOK, hb, hs2]
  · simp only [parseToken, tokenOK, hs]
    cases hd : digitsToNat stepStr with
    | none => simp [stepOK, hd]
    | some n =>
      cases n with
      | zero => simp [stepOK, hd]
      | succ k =>
        by_cases hb : body == ['*']
        · simp [stepOK, hd, hb]
        · rcases hs2 : splitCh (fun c => c == '-') body with _ | ⟨x, _ | ⟨y, _ | _⟩⟩
          · simp [stepOK, hd, hb, rangeOK, hs2]
          · simp [stepOK, hd, hb, rangeOK, hs2]
          · cases hdx : digitsToNat x with
            | none =>
              cases hdy : digitsToNat y <;> simp [stepOK, hd, hb, rangeOK, hs2, hdx, hdy]
            | some a =>
              cases hdy : digitsToNat y with
              | none => simp [stepOK, hd, hb, rangeOK, hs2, hdx, hdy]
              | some b =>
                by_cases h1 : lo ≤ a ∧ b ≤ hi
                · by_cases h2 : a ≤ b
                  · simp [stepOK, hd, hb, rangeOK, hs2, hdx, hdy, h1, h2]
                  · have h3 : ¬(lo ≤ a ∧ b ≤ hi ∧ a ≤ b) := by omega
                    simp [stepOK, hd, hb, rangeOK, hs2, hdx, hdy, h1, h2, h3]
                · have h3 : ¬(lo ≤ a ∧ b ≤ hi ∧ a ≤ b) := by omega
                  simp [stepOK, hd, hb, rangeOK, hs2, hdx, hdy, h1, h3]
          · simp [stepOK, hd, hb, rangeOK, hs2]
  · simp [parseToken, tokenOK, hs]

theorem parseTokens_isOk (lo hi : Nat) :
    ∀ ts : List (List Char),
      (parseTokens lo hi ts).isOk = ts.all (tokenOK lo hi) := by
  intro ts
  induction ts with
  | nil => rfl
  | cons t ts ih =>
    rw [parseTokens, List.all_cons, ← parseToken_isOk lo hi t, ← ih]
    cases hp : parseToken lo hi t with
    | error e => simp
    | ok l =>
      cases hr : parseTokens lo hi ts with
      | error e2 => simp
      | ok ls => simp

theorem parseField_isOk (lo hi : Nat) (f : List Char) :
    (parseField lo hi f).isOk = fieldOK lo hi f := by
  rw [parseField, fieldOK]
  by_cases hb : f == ['*']
  · rw [if_pos hb]
    have hf : f = ['*'] := eq_of_beq hb
    subst hf
    rfl
  · rw [if_neg hb, ← parseTokens_isOk]
    cases hp : parseTokens lo hi (splitCh (fun c => c == ',') f) with
    | error e => simp
    | ok vs => simp

theorem parse_isOk (s : String) : (parse s).isOk = conforms s := by
  rcases hf : ruleFields s.data with _ | ⟨f1, _ | ⟨f2, _ | ⟨f3, _ | ⟨f4, _ | ⟨f5, _ | _⟩⟩⟩⟩⟩
  · simp [parse, conforms, hf]
  · simp [parse, conforms, hf]
  · simp [parse, conforms, hf]
  · simp [parse, conforms, hf]
  · simp [parse, conforms, hf]
  · simp only [parse, conforms, hf]
    rw [← parseField_isOk 0 59 f1, ← parseField_isOk 0 23 f2, ← parseField_isOk 1 31 f3,
      ← parseField_isOk 1 12 f4, ← parseField_isOk 0 6 f5]
    cases h1 : parseField 0 59 f1 with
    | error e => simp
    | ok m =>
      cases h2 : parseField 0 23 f2 with
      | error e => simp
      | ok hh =>
        cases h3 : parseField 1 31 f3 with
        | error e => simp
        | ok d =>
          cases h4 : parseField 1 12 f4 with
          | error e => simp
          | ok mo =>
            cases h5 : parseField 0 6 f5 with
            | error e => simp
            | ok w => simp
  · simp [parse, conforms, hf]

theorem rangeStep_bounds (a b k : Nat) (hab : a ≤ b) :
    ∀ v ∈ rangeStep a b k, a ≤ v ∧ v ≤ b := by
  intro v hv
  rw [rangeStep] at hv
  simp only [List.mem_map, List.mem_range] at hv
  obtain ⟨i, hi, rfl⟩ := hv
  have h2 : i * k ≤ ((b - a) / k) * k := Nat.mul_le_mul_right k (by omega)
  have h3 : ((b - a) / k) * k ≤ b - a := Nat.div_mul_le_self _ _
  omega

theorem parseToken_bounds (lo hi : Nat) (hlh : lo ≤ hi) (t : List Char) (l : List Nat)
    (h : parseToken lo hi t = .ok l) : ∀ v ∈ l, lo ≤ v ∧ v ≤ hi := by
  rw [parseToken] at h
  split at h
  · split at h
    · cases h
      exact rangeStep_bounds lo hi 1 hlh
    · split at h
      · split at h
        · simp at h
        · split at h
          · rename_i n hmatch hn
            cases h
            intro v hv
            simp only [List.mem_singleton] at hv
            subst hv
            exact hn
          · simp at h
      · split at h
        · rename_i a b hma hmb
          split at h
          · rename_i hab2
            split at h
            · rename_i hle
              cases h
              intro v hv
              have := rangeStep_bounds a b 1 hle v hv
              omega
            · simp at h
          · simp at h
        · simp at h
      · simp at h
  · split at h
    · split at h
      · cases h
        exact rangeStep_bounds lo hi _ hlh
      · split at h
        · split at h
          · rename_i a b hma hmb
            split at h
            · rename_i hab2
              split at h
              · rename_i hle
                cases h
                intro v hv
                have := rangeStep_bounds a b _ hle v hv
                omega
              · simp at h
            · simp at h
          · simp at h
        · simp at h
    · simp at h
  · simp at h

theorem parseTokens_bounds (lo hi : Nat) (hlh : lo ≤ hi) :
    ∀ (ts : List (List Char)) (l : List Nat),
      parseTokens lo hi ts = .ok l → ∀ v ∈ l, lo ≤ v ∧ v ≤ hi := by
  intro ts
  induction ts with
  | nil =>
    intro l h
    rw [parseTokens] at h
    cases h
    intro v hv
    simp at hv
  | cons t ts ih =>
    intro l h
    rw [parseTokens] at h
    split at h
    · simp at h
    · rename_i l1 hp1
      split at h
      · simp at h
      · rename_i ls hp2
        cases h
        intro v hv
        rcases List.mem_append.mp hv with hv1 | hv2
        · exact parseToken_bounds lo hi hlh t l1 hp1 v hv1
        · exact ih ls hp2 v hv2

theorem parseField_valid (lo hi : Nat) (hlh : lo ≤ hi) (f : List Char)
    (cf : CronField) (h : parseField lo hi f = .ok cf) : fieldValid lo hi cf := by
  rw [parseField] at h
  split at h
  · cases h
    trivial
  · split at h
    · rename_i vs hvs
      cases h
      exact parseTokens_bounds lo hi hlh _ vs hvs
    · simp at h

/-- C1: the (spec-modelled) cron parser succeeds exactly on the strings
conforming to the documented 5-field grammar — every conforming string
parses, every violation (wrong field count, non-integer token, out-of-range
integer, inverted range, non-positive step) yields a `ParseError` (it is a
pure function, hence deterministic) — and every descriptor it produces
satisfies the domain-range invariant. -/
theorem parse_total_on_grammar (s : String) :
    (parse s).isOk = conforms s ∧ ∀ d, parse s = .ok d → validDesc d := by
  refine ⟨parse_isOk s, fun d h => ?_⟩
  rw [parse] at h
  split at h
  · split at h
    · rename_i m hm d2 mo w h1 h2 h3 h4 h5
      cases h
      exact ⟨parseField_valid 0 59 (by omega) _ _ h1, parseField_valid 0 23 (by omega) _ _ h2,
        parseField_valid 1 31 (by omega) _ _ h3, parseField_valid 1 12 (by omega) _ _ h4,
        parseField_valid 0 6 (by omega) _ _ h5⟩
    · simp at h
    · simp at h
    · simp at h
    · simp at h
    · simp at h
  · simp at h

/-- Witness for C1 at a concrete mixed expression. -/
theorem parse_total_on_grammar_witness :
    (parse "*/15 0-5 1,15 2 *").isOk = conforms "*/15 0-5 1,15 2 *" ∧
      validDesc ⟨.values [0, 15, 30, 45], .values [0, 1, 2, 3, 4, 5], .values [1, 15],
        .values [2], .wildcard⟩ :=
  ⟨(parse_total_on_grammar "*/15 0-5 1,15 2 *").1,
   (parse_total_on_grammar "*/15 0-5 1,15 2 *").2
     ⟨.values [0, 15, 30, 45], .values [0, 1, 2, 3, 4, 5], .values [1, 15],
        .values [2], .wildcard⟩ (by rfl)⟩

end Scheduler

